import Mathlib

/-!
# dnsbench: verified model of the dispatch-and-correlation engine

A shallow embedding of the rn7s2/dnsbench DNS load generator
(single source file, src/main.rs).  Each worker thread repeatedly
allocates a 16-bit transaction id from a shared counter, sends a DNS
query, and awaits a matching reply within a timeout; a single
aggregator loop on the main thread folds the resulting status events
into five counters and stops once every worker has reported
completion.

The network and the external DNS codec are modelled as oracles:

* a send attempt either succeeds or fails (SendOutcome);
* each blocking socket.recv call yields one RecvOutcome drawn from a
  finite trace (timed out, other transport error, or a datagram of
  bytes), the trace playing the role of the socket state that the
  Rust code threads implicitly;
* the dns_parser decoder is a parameter turning the 4096-byte receive
  buffer into an optional header (only the header id is consulted by
  the code).

Fallible or potentially blocking operations return Option: none marks
a model trace too short to answer the next blocking call.
-/

namespace DnsBench

/-- The WorkerStatus enum of src/main.rs: the tag of every event a
worker sends over the mpsc channel to the aggregator. -/
inductive WorkerStatus where
  | Sent
  | Success
  | Timeout
  | Failed
  | AllFinished
deriving DecidableEq, Repr

/-- Outcome of one socket.send call, as classified by send_req. -/
inductive SendOutcome where
  | ok
  | err
deriving DecidableEq, Repr

/-- The part of a decoded dns_parser Packet that recv_resp consults:
the header with its transaction id (v.header.id). -/
structure DnsHeader where
  id : Nat
deriving DecidableEq, Repr

/-- Outcome of one blocking socket.recv call on a socket whose read
timeout has been armed: the recv timed out, failed with another
transport error, or delivered a datagram of bytes. -/
inductive RecvOutcome where
  | timedOut
  | recvErr
  | ok (datagram : List Nat)
deriving DecidableEq, Repr

/-- The receive buffer recv_resp hands to the decoder: the code
declares a zero-initialised 4096-byte array, lets socket.recv fill a
prefix of it with the datagram, ignores the returned length, and
parses the whole array.  So the decoder sees the datagram (truncated
at 4096) followed by zero padding up to exactly 4096 bytes. -/
def recvBuffer (datagram : List Nat) : List Nat :=
  (datagram ++ List.replicate 4096 0).take 4096

/-- The recv_resp function of src/main.rs in state-passing form: the
trace lists the successive results of socket.recv, and the returned
remainder is the part of the trace the call did not consume.  A recv
timeout yields Timeout, another recv error yields Failed, a datagram
the decoder rejects yields Failed, a decoded reply whose header id
matches yields Success, and a decoded reply with a different id emits
nothing and recurses on the rest of the trace.  none marks a trace
too short to answer the next blocking recv. -/
def recv_resp (parseResp : List Nat → Option DnsHeader) (id : Nat) :
    List RecvOutcome → Option (WorkerStatus × List RecvOutcome)
  | [] => none
  | RecvOutcome.timedOut :: rest => some (WorkerStatus.Timeout, rest)
  | RecvOutcome.recvErr :: rest => some (WorkerStatus.Failed, rest)
  | RecvOutcome.ok d :: rest =>
    match parseResp (recvBuffer d) with
    | some h =>
      if h.id = id then some (WorkerStatus.Success, rest)
      else recv_resp parseResp id rest
    | none => some (WorkerStatus.Failed, rest)

/-- The send_req function of src/main.rs, with packet building by the
external codec abstracted away: Ok from socket.send maps to Sent and
any Err maps to Failed. -/
def send_req (s : SendOutcome) : WorkerStatus :=
  match s with
  | SendOutcome.ok => WorkerStatus.Sent
  | SendOutcome.err => WorkerStatus.Failed

/-- One iteration of the worker loop in main: call send_req and emit
its status; only if that status is Sent, call recv_resp and emit its
status too.  Returns the events of the iteration and the unconsumed
recv trace. -/
def workerIter (parseResp : List Nat → Option DnsHeader) (rid : Nat)
    (s : SendOutcome) (tr : List RecvOutcome) :
    Option (List WorkerStatus × List RecvOutcome) :=
  let st := send_req s
  if st = WorkerStatus.Sent then
    match recv_resp parseResp rid tr with
    | some (st2, rest) => some ([st, st2], rest)
    | none => none
  else some ([st], tr)

/-- The whole worker thread body of main: one workerIter per planned
iteration (each carrying the transaction id drawn from the shared
allocator and that send attempt's outcome), then a single AllFinished
event.  Returns the full event stream the worker feeds the channel,
in order, plus the unconsumed recv trace. -/
def workerRun (parseResp : List Nat → Option DnsHeader) :
    List (Nat × SendOutcome) → List RecvOutcome →
    Option (List WorkerStatus × List RecvOutcome)
  | [], tr => some ([WorkerStatus.AllFinished], tr)
  | (rid, s) :: iters, tr =>
    match workerIter parseResp rid s tr with
    | some (evs, tr') =>
      match workerRun parseResp iters tr' with
      | some (evs', tr'') => some (evs ++ evs', tr'')
      | none => none
    | none => none

/-- The transaction id allocation of main under the shared mutex:
read rid = *id, then *id += 1 wrapping at 16 bits (u16 release
semantics).  Returns the pre-increment value and the new counter. -/
def txnNext (c : Nat) : Nat × Nat :=
  (c, (c + 1) % 65536)

/-- n successive transaction id allocations starting from counter c:
the list of pre-increment values handed out, in order. -/
def txnAlloc : Nat → Nat → List Nat
  | _, 0 => []
  | c, n + 1 =>
    let p := txnNext c
    p.1 :: txnAlloc p.2 n

/-- str::trim of the Rust standard library applied to one line's
character sequence: drop leading and trailing whitespace. -/
def trimChars (l : List Char) : List Char :=
  ((l.dropWhile Char.isWhitespace).reverse.dropWhile Char.isWhitespace).reverse

/-- The read_domains function of src/main.rs over the file's lines,
each line given as its character sequence: trim the line, skip it
when the trimmed line is empty, keep the trimmed line when the
external validator (parse_domain_name) accepts it, silently drop it
otherwise.  The validator is a parameter since the addr crate is an
external collaborator. -/
def read_domains (valid : List Char → Bool) : List (List Char) → List (List Char)
  | [] => []
  | l :: ls =>
    let t := trimChars l
    if t.isEmpty then read_domains valid ls
    else if valid t then t :: read_domains valid ls
    else read_domains valid ls

/-- The five aggregate counters the main loop owns. -/
structure Counters where
  sent : Nat
  success : Nat
  timeout : Nat
  failed : Nat
  all_finished : Nat
deriving DecidableEq, Repr

/-- All counters start at zero. -/
def counters0 : Counters :=
  { sent := 0, success := 0, timeout := 0, failed := 0, all_finished := 0 }

/-- One transition of the aggregator: the match in the main loop that
increments exactly the counter named by the event's tag. -/
def step (c : Counters) : WorkerStatus → Counters
  | WorkerStatus.Sent => { c with sent := c.sent + 1 }
  | WorkerStatus.Success => { c with success := c.success + 1 }
  | WorkerStatus.Timeout => { c with timeout := c.timeout + 1 }
  | WorkerStatus.Failed => { c with failed := c.failed + 1 }
  | WorkerStatus.AllFinished => { c with all_finished := c.all_finished + 1 }

/-- The aggregator loop of main over the stream of events the channel
delivers: receive an event, fold it into the counters, and break as
soon as all_finished equals the configured thread count.  The Bool
records whether the loop broke; on an exhausted stream the Rust loop
blocks in rx.recv forever (main never drops its own Sender), which
the model renders as (current counters, false). -/
def aggLoop (threads : Nat) : Counters → List WorkerStatus → Counters × Bool
  | c, [] => (c, false)
  | c, e :: es =>
    let c' := step c e
    if c'.all_finished = threads then (c', true) else aggLoop threads c' es

/-- Every counter state the aggregator loop passes through, in order,
starting with the initial state and cut at the break. -/
def aggStates (threads : Nat) : Counters → List WorkerStatus → List Counters
  | c, [] => [c]
  | c, e :: es =>
    let c' := step c e
    if c'.all_finished = threads then [c, c'] else c :: aggStates threads c' es

/-- Componentwise order on the aggregate counters. -/
def counterLE (a b : Counters) : Prop :=
  a.sent ≤ b.sent ∧ a.success ≤ b.success ∧ a.timeout ≤ b.timeout ∧
    a.failed ≤ b.failed ∧ a.all_finished ≤ b.all_finished

/-- Wall-clock time one recv_resp call spends blocked, on a trace that
pairs each recv outcome with the duration of that blocking call.
Every attempt re-arms the read timeout at the full configured value
before blocking, so durations are only constrained per attempt; the
total adds the durations of all attempts the call consumes. -/
def recvWait (parseResp : List Nat → Option DnsHeader) (id : Nat) :
    List (RecvOutcome × Nat) → Nat
  | [] => 0
  | (RecvOutcome.timedOut, t) :: _ => t
  | (RecvOutcome.recvErr, t) :: _ => t
  | (RecvOutcome.ok d, t) :: rest =>
    match parseResp (recvBuffer d) with
    | some h => if h.id = id then t else t + recvWait parseResp id rest
    | none => t

/-- Number of decoded-but-mismatched replies a recv_resp call skips
over on a timed trace before it settles. -/
def recvMismatches (parseResp : List Nat → Option DnsHeader) (id : Nat) :
    List (RecvOutcome × Nat) → Nat
  | [] => 0
  | (RecvOutcome.timedOut, _) :: _ => 0
  | (RecvOutcome.recvErr, _) :: _ => 0
  | (RecvOutcome.ok d, _) :: rest =>
    match parseResp (recvBuffer d) with
    | some h => if h.id = id then 0 else 1 + recvMismatches parseResp id rest
    | none => 0

/-- A decoder replying with header id 1 to every buffer, used to
exercise the mismatch path at concrete inputs. -/
def parseConst1 : List Nat → Option DnsHeader :=
  fun _ => some { id := 1 }

/-! ## Helper lemmas -/

/-- Unrolling txnAlloc: starting below the wrap bound, the i-th value
handed out is (s + i) mod 2^16. -/
theorem txnAlloc_eq_map (n s : Nat) (hs : s < 65536) :
    txnAlloc s n = (List.range n).map (fun i => (s + i) % 65536) := by
  induction n generalizing s with
  | zero => rfl
  | succ n ih =>
    have hlt : (s + 1) % 65536 < 65536 := Nat.mod_lt _ (by omega)
    have htail := ih ((s + 1) % 65536) hlt
    rw [List.range_succ_eq_map]
    simp only [txnAlloc, txnNext, List.map_cons, List.map_map]
    refine congrArg₂ List.cons ?_ ?_
    · exact (Nat.add_zero s ▸ (Nat.mod_eq_of_lt hs)).symm
    · rw [htail]
      refine List.map_congr_left ?_
      intro i _
      simp [Function.comp, Nat.mod_add_mod, Nat.add_assoc, Nat.add_comm 1 i]

/-! ## Claims -/

/-- C1: when a reply decodes successfully but its transaction id
differs from the id sent for the iteration, recv_resp emits no status
for that reply (so it is never counted as Success) and re-blocks on
the same socket: the call is equal to the call on the remaining
trace. -/
theorem recv_resp_mismatch_skips (parseResp : List Nat → Option DnsHeader)
    (id : Nat) (d : List Nat) (rest : List RecvOutcome) (h : DnsHeader)
    (hp : parseResp (recvBuffer d) = some h) (hne : h.id ≠ id) :
    recv_resp parseResp id (RecvOutcome.ok d :: rest) =
      recv_resp parseResp id rest := by
  simp [recv_resp, hp, hne]

/-- Witness for C1 at a concrete mismatched reply. -/
theorem recv_resp_mismatch_skips_witness :
    parseConst1 (recvBuffer []) = some { id := 1 } ∧ (1 : Nat) ≠ 0 ∧
      recv_resp parseConst1 0 (RecvOutcome.ok [] :: [RecvOutcome.timedOut]) =
        recv_resp parseConst1 0 [RecvOutcome.timedOut] :=
  ⟨rfl, by decide,
    recv_resp_mismatch_skips parseConst1 0 [] [RecvOutcome.timedOut]
      { id := 1 } rfl (by decide)⟩

/-- C3: each allocation returns the previous counter value and
advances the shared counter by one wrapping modulo 2^16, and any
sequence of n allocations starting from a 16-bit counter hands out
pairwise distinct pre-increment values whenever n is at most 65536. -/
theorem txn_ids_distinct :
    (∀ c : Nat, txnNext c = (c, (c + 1) % 65536)) ∧
    (∀ s n : Nat, s < 65536 → n ≤ 65536 → (txnAlloc s n).Nodup) := by
  refine ⟨fun c => rfl, ?_⟩
  intro s n hs hn
  rw [txnAlloc_eq_map n s hs]
  refine List.Nodup.map_on ?_ (List.nodup_range n)
  intro i hi j hj hij
  rw [List.mem_range] at hi hj
  omega

/-- Witness for C3: three allocations from a fresh counter are
pairwise distinct. -/
theorem txn_ids_distinct_witness :
    (0 : Nat) < 65536 ∧ (3 : Nat) ≤ 65536 ∧ (txnAlloc 0 3).Nodup :=
  ⟨by decide, by decide, txn_ids_distinct.2 0 3 (by decide) (by decide)⟩

/-- C10: the reply decoder is applied to the entire fixed 4096-byte
receive buffer (the datagram followed by the zero padding), not only
to the bytes received: the buffer always has length 4096, the ok step
of recv_resp is exactly the decoder's verdict on that padded buffer,
and two decoders that agree on the raw datagram can still classify
the same reply as Success and as Failed by treating the padding
differently. -/
theorem recv_resp_parses_full_buffer :
    (∀ d : List Nat, (recvBuffer d).length = 4096) ∧
    (∀ (parseResp : List Nat → Option DnsHeader) (id : Nat) (d : List Nat)
        (rest : List RecvOutcome),
      recv_resp parseResp id (RecvOutcome.ok d :: rest) =
        match parseResp (recvBuffer d) with
        | some h =>
          if h.id = id then some (WorkerStatus.Success, rest)
          else recv_resp parseResp id rest
        | none => some (WorkerStatus.Failed, rest)) ∧
    (∃ (p1 p2 : List Nat → Option DnsHeader) (d : List Nat),
      p1 d = p2 d ∧
      recv_resp p1 0 [RecvOutcome.ok d] = some (WorkerStatus.Success, []) ∧
      recv_resp p2 0 [RecvOutcome.ok d] = some (WorkerStatus.Failed, [])) := by
  have hlen : ∀ d : List Nat, (recvBuffer d).length = 4096 := by
    intro d
    unfold recvBuffer
    rw [List.length_take, List.length_append, List.length_replicate]
    omega
  refine ⟨hlen, fun parseResp id d rest => rfl, ?_⟩
  refine ⟨fun b => if b.length = 4096 then some { id := 0 } else none,
    fun _ => none, [], ?_, ?_, ?_⟩
  · simp
  · simp [recv_resp, hlen []]
  · simp [recv_resp]

/-- Folding the aggregator transition over a whole event list turns
each counter into its starting value plus the number of events
carrying the matching tag. -/
theorem foldl_step_counts : ∀ (es : List WorkerStatus) (c : Counters),
    es.foldl step c =
      { sent := c.sent + es.count WorkerStatus.Sent,
        success := c.success + es.count WorkerStatus.Success,
        timeout := c.timeout + es.count WorkerStatus.Timeout,
        failed := c.failed + es.count WorkerStatus.Failed,
        all_finished := c.all_finished + es.count WorkerStatus.AllFinished } := by
  intro es
  induction es with
  | nil => intro c; simp
  | cons e es ih =>
    intro c
    rw [List.foldl_cons, ih]
    cases e <;> simp [step, List.count_cons, Counters.mk.injEq] <;> omega

/-- If the event stream ends with the AllFinished event that brings
workers_done up to the thread count, the aggregator loop consumes the
whole stream and breaks on its last element. -/
theorem aggLoop_complete : ∀ (es : List WorkerStatus) (c : Counters) (threads : Nat),
    es.getLast? = some WorkerStatus.AllFinished →
    c.all_finished + es.count WorkerStatus.AllFinished = threads →
    aggLoop threads c es = (es.foldl step c, true) := by
  intro es
  induction es with
  | nil => intro c threads hl _; simp at hl
  | cons e es ih =>
    intro c threads hl hc
    cases es with
    | nil =>
      have he : e = WorkerStatus.AllFinished := by simpa [List.getLast?] using hl
      subst he
      have hb : (step c WorkerStatus.AllFinished).all_finished = threads := by
        simp [step, List.count_cons] at hc ⊢
        omega
      simp [aggLoop, step, hb] at hc ⊢
      omega
    | cons e2 es2 =>
      have hl2 : (e2 :: es2).getLast? = some WorkerStatus.AllFinished := by
        simpa using hl
      have hmem : WorkerStatus.AllFinished ∈ e2 :: es2 :=
        List.mem_of_getLast?_eq_some hl2
      have hcnt : (e2 :: es2).count WorkerStatus.AllFinished ≠ 0 :=
        fun h0 => (List.count_eq_zero.mp h0) hmem
      have hstep : (step c e).all_finished +
          (e2 :: es2).count WorkerStatus.AllFinished = threads := by
        cases e <;> simp [step, List.count_cons] at hc ⊢ <;> omega
      have hne : (step c e).all_finished ≠ threads := by omega
      rw [aggLoop, List.foldl_cons]
      simp only [hne, if_false]
      exact ih (step c e) threads hl2 hstep

/-- Once the running workers_done count falls short of the thread
count but the remaining stream still carries enough AllFinished
events, the aggregator loop breaks. -/
theorem aggLoop_terminates : ∀ (es : List WorkerStatus) (c : Counters) (threads : Nat),
    c.all_finished < threads →
    threads ≤ c.all_finished + es.count WorkerStatus.AllFinished →
    (aggLoop threads c es).2 = true := by
  intro es
  induction es with
  | nil => intro c threads h1 h2; simp at h2; omega
  | cons e es ih =>
    intro c threads h1 h2
    have hle : (step c e).all_finished ≤ c.all_finished + 1 := by
      cases e <;> simp [step]
    by_cases hb : (step c e).all_finished = threads
    · simp [aggLoop, hb]
    · rw [aggLoop]
      simp only [hb, if_false]
      refine ih (step c e) threads (by omega) ?_
      cases e <;> simp [step, List.count_cons] at h2 ⊢ <;> omega

/-- Whenever the aggregator loop breaks, the counters it breaks with
have workers_done equal to the thread count. -/
theorem aggLoop_break_eq : ∀ (es : List WorkerStatus) (c : Counters) (threads : Nat),
    (aggLoop threads c es).2 = true →
    (aggLoop threads c es).1.all_finished = threads := by
  intro es
  induction es with
  | nil => intro c threads h; simp [aggLoop] at h
  | cons e es ih =>
    intro c threads h
    by_cases hb : (step c e).all_finished = threads
    · simp [aggLoop, hb]
    · rw [aggLoop] at h ⊢
      simp only [hb, if_false] at h ⊢
      exact ih (step c e) threads h

/-- As long as the stream carries no more AllFinished events than the
thread count has room for, no state the loop passes through exceeds
the thread count. -/
theorem aggStates_bound : ∀ (es : List WorkerStatus) (c : Counters) (threads : Nat),
    c.all_finished + es.count WorkerStatus.AllFinished ≤ threads →
    ∀ x ∈ aggStates threads c es, x.all_finished ≤ threads := by
  intro es
  induction es with
  | nil =>
    intro c threads h x hx
    simp [aggStates] at hx
    subst hx
    simp at h
    omega
  | cons e es ih =>
    intro c threads h x hx
    have hc : c.all_finished ≤ threads := by
      simp [List.count_cons] at h
      omega
    have hstep : (step c e).all_finished +
        es.count WorkerStatus.AllFinished ≤ threads := by
      cases e <;> simp [step, List.count_cons] at h ⊢ <;> omega
    by_cases hb : (step c e).all_finished = threads
    · simp [aggStates, hb] at hx
      rcases hx with hx | hx <;> subst hx
      · exact hc
      · omega
    · simp [aggStates, hb] at hx
      rcases hx with hx | hx
      · subst hx; exact hc
      · exact ih (step c e) threads hstep x hx

/-- Every aggregator transition only grows every counter. -/
theorem step_le (c : Counters) (e : WorkerStatus) : counterLE c (step c e) := by
  cases e <;> simp only [counterLE, step] <;> omega

/-- The state list the aggregator walks through starts at its initial
state. -/
theorem aggStates_head (es : List WorkerStatus) (c : Counters) (threads : Nat) :
    ∃ t, aggStates threads c es = c :: t := by
  cases es with
  | nil => exact ⟨[], rfl⟩
  | cons e es =>
    by_cases hb : (step c e).all_finished = threads
    · exact ⟨[step c e], by simp [aggStates, hb]⟩
    · exact ⟨aggStates threads (step c e) es, by simp [aggStates, hb]⟩

/-- Consecutive aggregator states are componentwise non-decreasing. -/
theorem aggStates_chain : ∀ (es : List WorkerStatus) (c : Counters) (threads : Nat),
    List.Chain' counterLE (aggStates threads c es) := by
  intro es
  induction es with
  | nil => intro c threads; simp [aggStates]
  | cons e es ih =>
    intro c threads
    by_cases hb : (step c e).all_finished = threads
    · simp [aggStates, hb]
      exact step_le c e
    · simp only [aggStates, hb, if_false]
      obtain ⟨t, ht⟩ := aggStates_head es (step c e) threads
      rw [ht]
      exact List.Chain'.cons (step_le c e) (ht ▸ ih (step c e) threads)

/-- C4 (amended): when the stream carries at most threads AllFinished
events (as any real run's stream does), workers_done never exceeds the
thread count at any point of the loop; whenever the loop breaks it
does so with workers_done equal to the thread count; and with at
least one worker, a stream carrying the workers' AllFinished events
makes the loop break. -/
theorem agg_termination (threads : Nat) (es : List WorkerStatus) :
    (es.count WorkerStatus.AllFinished ≤ threads →
      ∀ x ∈ aggStates threads counters0 es, x.all_finished ≤ threads) ∧
    ((aggLoop threads counters0 es).2 = true →
      (aggLoop threads counters0 es).1.all_finished = threads) ∧
    (0 < threads → threads ≤ es.count WorkerStatus.AllFinished →
      (aggLoop threads counters0 es).2 = true) := by
  refine ⟨?_, aggLoop_break_eq es counters0 threads, ?_⟩
  · intro h
    exact aggStates_bound es counters0 threads (by simpa [counters0] using h)
  · intro h1 h2
    exact aggLoop_terminates es counters0 threads (by simpa [counters0] using h1)
      (by simpa [counters0] using h2)

/-- Witness for C4 (amended) on a concrete two-worker stream. -/
theorem agg_termination_witness :
    (∀ x ∈ aggStates 2 counters0
        [WorkerStatus.Sent, WorkerStatus.AllFinished, WorkerStatus.AllFinished],
      x.all_finished ≤ 2) ∧
    (aggLoop 2 counters0
        [WorkerStatus.Sent, WorkerStatus.AllFinished, WorkerStatus.AllFinished]).2 = true :=
  ⟨(agg_termination 2 _).1 (by decide),
    (agg_termination 2 _).2.2 (by decide) (by decide)⟩

/-- C4 counterexample: with thread count zero the run spawns no
workers, so the aggregator's stream is empty; workers_done equals the
configured thread count from the start, yet the loop never breaks (the
Rust loop blocks in rx.recv forever, since main keeps its own Sender
alive). -/
theorem agg_termination_zero_threads :
    counters0.all_finished = 0 ∧ aggLoop 0 counters0 [] = (counters0, false) :=
  ⟨rfl, rfl⟩

/-- C7: consuming one event increments exactly the counter matching
the event's tag by one and leaves the other four unchanged, and hence
the counter states of the aggregator are monotonically non-decreasing
throughout the run. -/
theorem agg_counters_monotone :
    (∀ c : Counters,
      step c WorkerStatus.Sent = { c with sent := c.sent + 1 } ∧
      step c WorkerStatus.Success = { c with success := c.success + 1 } ∧
      step c WorkerStatus.Timeout = { c with timeout := c.timeout + 1 } ∧
      step c WorkerStatus.Failed = { c with failed := c.failed + 1 } ∧
      step c WorkerStatus.AllFinished = { c with all_finished := c.all_finished + 1 }) ∧
    (∀ (threads : Nat) (c : Counters) (es : List WorkerStatus),
      List.Chain' counterLE (aggStates threads c es)) :=
  ⟨fun _ => ⟨rfl, rfl, rfl, rfl, rfl⟩,
    fun threads c es => aggStates_chain es c threads⟩

/-- A settled receive is classified as exactly one of Success,
Timeout or Failed. -/
theorem recv_resp_status (parseResp : List Nat → Option DnsHeader) (id : Nat) :
    ∀ (tr : List RecvOutcome) (st : WorkerStatus) (rest : List RecvOutcome),
      recv_resp parseResp id tr = some (st, rest) →
      st = WorkerStatus.Success ∨ st = WorkerStatus.Timeout ∨ st = WorkerStatus.Failed := by
  intro tr
  induction tr with
  | nil => intro st rest h; simp [recv_resp] at h
  | cons e tr ih =>
    intro st rest h
    cases e with
    | timedOut =>
      simp [recv_resp] at h
      exact Or.inr (Or.inl h.1.symm)
    | recvErr =>
      simp [recv_resp] at h
      exact Or.inr (Or.inr h.1.symm)
    | ok d =>
      cases hp : parseResp (recvBuffer d) with
      | none =>
        simp [recv_resp, hp] at h
        exact Or.inr (Or.inr h.1.symm)
      | some hdr =>
        by_cases hid : hdr.id = id
        · simp [recv_resp, hp, hid] at h
          exact Or.inl h.1.symm
        · simp [recv_resp, hp, hid] at h
          exact ih st rest h

/-- Event counts of a single worker iteration: one Sent exactly when
the send succeeded, exactly one terminal Success/Timeout/Failed
event, and no AllFinished event. -/
theorem workerIter_counts (parseResp : List Nat → Option DnsHeader) (rid : Nat)
    (s : SendOutcome) (tr : List RecvOutcome) (evs : List WorkerStatus)
    (rest : List RecvOutcome) (h : workerIter parseResp rid s tr = some (evs, rest)) :
    evs.count WorkerStatus.Sent = (if s = SendOutcome.ok then 1 else 0) ∧
    evs.count WorkerStatus.Success + evs.count WorkerStatus.Timeout +
      evs.count WorkerStatus.Failed = 1 ∧
    evs.count WorkerStatus.AllFinished = 0 := by
  cases s with
  | err =>
    simp [workerIter, send_req] at h
    rw [← h.1]
    decide
  | ok =>
    cases hr : recv_resp parseResp rid tr with
    | none => simp [workerIter, send_req, hr] at h
    | some pr =>
      obtain ⟨st2, r2⟩ := pr
      simp [workerIter, send_req, hr] at h
      rw [← h.1]
      rcases recv_resp_status parseResp rid tr st2 r2 hr with h3 | h3 | h3 <;>
        subst h3 <;> decide

/-- Event counts of a whole worker run: the Sent events count the
iterations whose send succeeded, every iteration contributes exactly
one terminal Success/Timeout/Failed event, and the run carries exactly
one AllFinished event. -/
theorem workerRun_counts (parseResp : List Nat → Option DnsHeader) :
    ∀ (iters : List (Nat × SendOutcome)) (tr : List RecvOutcome)
      (evs : List WorkerStatus) (rest : List RecvOutcome),
      workerRun parseResp iters tr = some (evs, rest) →
      evs.count WorkerStatus.Sent =
          (iters.filter (fun p => p.2 == SendOutcome.ok)).length ∧
      evs.count WorkerStatus.Success + evs.count WorkerStatus.Timeout +
          evs.count WorkerStatus.Failed = iters.length ∧
      evs.count WorkerStatus.AllFinished = 1 := by
  intro iters
  induction iters with
  | nil =>
    intro tr evs rest h
    simp [workerRun] at h
    rw [← h.1]
    decide
  | cons p iters ih =>
    obtain ⟨rid, s⟩ := p
    intro tr evs rest h
    cases hi : workerIter parseResp rid s tr with
    | none => rw [workerRun] at h; simp [hi] at h
    | some pr1 =>
      obtain ⟨evs1, tr'⟩ := pr1
      cases hw : workerRun parseResp iters tr' with
      | none => rw [workerRun] at h; simp [hi, hw] at h
      | some pr2 =>
        obtain ⟨evs2, tr''⟩ := pr2
        rw [workerRun] at h
        simp [hi, hw] at h
        obtain ⟨a1, a2, a3⟩ := workerIter_counts parseResp rid s tr evs1 tr' hi
        obtain ⟨b1, b2, b3⟩ := ih tr' evs2 tr'' hw
        refine ⟨?_, ?_, ?_⟩
        · rw [← h.1, List.count_append, a1, b1, List.filter_cons]
          cases s <;> simp [Nat.add_comm]
        · rw [← h.1, List.count_append, List.count_append, List.count_append,
            List.length_cons]
          omega
        · rw [← h.1, List.count_append, a3, b3]

/-- The events of one iteration never include AllFinished. -/
theorem workerIter_no_done (parseResp : List Nat → Option DnsHeader) (rid : Nat)
    (s : SendOutcome) (tr : List RecvOutcome) (evs : List WorkerStatus)
    (rest : List RecvOutcome) (h : workerIter parseResp rid s tr = some (evs, rest)) :
    WorkerStatus.AllFinished ∉ evs := by
  have hc := (workerIter_counts parseResp rid s tr evs rest h).2.2
  exact List.count_eq_zero.mp hc

/-- A completed worker run's event stream is some AllFinished-free
prefix followed by a single closing AllFinished. -/
theorem workerRun_shape (parseResp : List Nat → Option DnsHeader) :
    ∀ (iters : List (Nat × SendOutcome)) (tr : List RecvOutcome)
      (evs : List WorkerStatus) (rest : List RecvOutcome),
      workerRun parseResp iters tr = some (evs, rest) →
      ∃ pre, evs = pre ++ [WorkerStatus.AllFinished] ∧
        WorkerStatus.AllFinished ∉ pre := by
  intro iters
  induction iters with
  | nil =>
    intro tr evs rest h
    simp [workerRun] at h
    exact ⟨[], h.1.symm, by simp⟩
  | cons p iters ih =>
    obtain ⟨rid, s⟩ := p
    intro tr evs rest h
    cases hi : workerIter parseResp rid s tr with
    | none => rw [workerRun] at h; simp [hi] at h
    | some pr1 =>
      obtain ⟨evs1, tr'⟩ := pr1
      cases hw : workerRun parseResp iters tr' with
      | none => rw [workerRun] at h; simp [hi, hw] at h
      | some pr2 =>
        obtain ⟨evs2, tr''⟩ := pr2
        rw [workerRun] at h
        simp [hi, hw] at h
        obtain ⟨pre2, hp2, hn2⟩ := ih tr' evs2 tr'' hw
        refine ⟨evs1 ++ pre2, ?_, ?_⟩
        · rw [← h.1, hp2, List.append_assoc]
        · rw [List.mem_append]
          rintro (hm | hm)
          · exact workerIter_no_done parseResp rid s tr evs1 tr' hi hm
          · exact hn2 hm

/-- A worker whose sends all fail emits one Failed per iteration and
then AllFinished, consuming nothing from the receive trace. -/
theorem workerRun_err_all (parseResp : List Nat → Option DnsHeader) :
    ∀ (ids : List Nat) (tr : List RecvOutcome),
      workerRun parseResp (ids.map (fun i => (i, SendOutcome.err))) tr =
        some (List.replicate ids.length WorkerStatus.Failed ++
          [WorkerStatus.AllFinished], tr) := by
  intro ids
  induction ids with
  | nil => intro tr; rfl
  | cons i ids ih =>
    intro tr
    rw [List.map_cons, workerRun]
    simp [workerIter, send_req, ih tr, List.replicate_succ]

/-- The send-ok and send-err iterations of a worker partition its
planned iterations. -/
theorem sendSplit : ∀ (iters : List (Nat × SendOutcome)),
    (iters.filter (fun p => p.2 == SendOutcome.ok)).length +
      (iters.filter (fun p => p.2 == SendOutcome.err)).length = iters.length := by
  intro iters
  induction iters with
  | nil => rfl
  | cons p iters ih =>
    obtain ⟨rid, s⟩ := p
    cases s <;> simp [List.filter_cons] <;> omega

/-- C5: in every iteration, a successful send emits exactly one Sent
event and then attempts the receive, while a failed send (any
transport error) emits exactly one Failed event and skips the receive
step, leaving the socket trace untouched. -/
theorem send_branching (parseResp : List Nat → Option DnsHeader) (rid : Nat)
    (tr : List RecvOutcome) :
    workerIter parseResp rid SendOutcome.err tr =
      some ([WorkerStatus.Failed], tr) ∧
    (∀ (st2 : WorkerStatus) (rest : List RecvOutcome),
      recv_resp parseResp rid tr = some (st2, rest) →
      workerIter parseResp rid SendOutcome.ok tr =
        some ([WorkerStatus.Sent, st2], rest)) := by
  constructor
  · simp [workerIter, send_req]
  · intro st2 rest hr
    simp [workerIter, send_req, hr]

/-- Witness for C5 on a concrete matching reply. -/
theorem send_branching_witness :
    recv_resp parseConst1 1 [RecvOutcome.ok []] =
        some (WorkerStatus.Success, []) ∧
    workerIter parseConst1 1 SendOutcome.err [RecvOutcome.ok []] =
        some ([WorkerStatus.Failed], [RecvOutcome.ok []]) ∧
    workerIter parseConst1 1 SendOutcome.ok [RecvOutcome.ok []] =
        some ([WorkerStatus.Sent, WorkerStatus.Success], []) :=
  ⟨rfl, (send_branching parseConst1 1 [RecvOutcome.ok []]).1,
    (send_branching parseConst1 1 [RecvOutcome.ok []]).2
      WorkerStatus.Success [] rfl⟩

/-- C6: every worker that completes its planned iterations emits
exactly one AllFinished event, as the last event of its stream,
whatever the outcomes of the iterations were. -/
theorem worker_done_last (parseResp : List Nat → Option DnsHeader)
    (iters : List (Nat × SendOutcome)) (tr : List RecvOutcome)
    (evs : List WorkerStatus) (rest : List RecvOutcome)
    (h : workerRun parseResp iters tr = some (evs, rest)) :
    evs.count WorkerStatus.AllFinished = 1 ∧
      evs.getLast? = some WorkerStatus.AllFinished := by
  obtain ⟨pre, hp, hn⟩ := workerRun_shape parseResp iters tr evs rest h
  subst hp
  constructor
  · rw [List.count_append, List.count_eq_zero.mpr hn]
    rfl
  · exact List.getLast?_concat pre

/-- Witness for C6 on a concrete mixed run: one delivered reply, one
failed send, then completion. -/
theorem worker_done_last_witness :
    workerRun parseConst1 [(1, SendOutcome.ok), (2, SendOutcome.err)]
        [RecvOutcome.ok []] =
      some ([WorkerStatus.Sent, WorkerStatus.Success, WorkerStatus.Failed,
        WorkerStatus.AllFinished], []) ∧
    ([WorkerStatus.Sent, WorkerStatus.Success, WorkerStatus.Failed,
        WorkerStatus.AllFinished].count WorkerStatus.AllFinished = 1 ∧
      [WorkerStatus.Sent, WorkerStatus.Success, WorkerStatus.Failed,
        WorkerStatus.AllFinished].getLast? = some WorkerStatus.AllFinished) :=
  ⟨rfl, worker_done_last parseConst1 [(1, SendOutcome.ok), (2, SendOutcome.err)]
    [RecvOutcome.ok []] _ [] rfl⟩

/-- C2: per worker, the planned iterations partition into failed
sends (each one Failed event and no Sent event) and sent iterations
(each exactly one terminal event): Sent events plus failed-send
iterations equal the iteration count, and terminal
Success/Timeout/Failed events also equal the iteration count.  In the
threads=2, number=5, all-sends-fail scenario, any channel
interleaving of the two worker streams drives the aggregator to
sent=0, success=0, timeout=0, failed=10, workers_done=2 at the
break. -/
theorem run_accounting :
    (∀ (parseResp : List Nat → Option DnsHeader) (iters : List (Nat × SendOutcome))
        (tr : List RecvOutcome) (evs : List WorkerStatus) (rest : List RecvOutcome),
      workerRun parseResp iters tr = some (evs, rest) →
      evs.count WorkerStatus.Sent +
          (iters.filter (fun p => p.2 == SendOutcome.err)).length = iters.length ∧
      evs.count WorkerStatus.Success + evs.count WorkerStatus.Timeout +
          evs.count WorkerStatus.Failed = iters.length) ∧
    (∀ (pa pb : List Nat → Option DnsHeader) (idsA idsB : List Nat)
        (trA trB : List RecvOutcome) (evsA evsB : List WorkerStatus)
        (rA rB : List RecvOutcome) (es : List WorkerStatus),
      idsA.length = 5 → idsB.length = 5 →
      workerRun pa (idsA.map (fun i => (i, SendOutcome.err))) trA = some (evsA, rA) →
      workerRun pb (idsB.map (fun i => (i, SendOutcome.err))) trB = some (evsB, rB) →
      es.Perm (evsA ++ evsB) →
      es.getLast? = some WorkerStatus.AllFinished →
      aggLoop 2 counters0 es =
        ({ sent := 0, success := 0, timeout := 0, failed := 10,
            all_finished := 2 }, true)) := by
  constructor
  · intro parseResp iters tr evs rest h
    obtain ⟨c1, c2, _⟩ := workerRun_counts parseResp iters tr evs rest h
    refine ⟨?_, c2⟩
    rw [c1]
    exact sendSplit iters
  · intro pa pb idsA idsB trA trB evsA evsB rA rB es hA hB hwA hwB hperm hlast
    have eA : evsA = List.replicate 5 WorkerStatus.Failed ++
        [WorkerStatus.AllFinished] := by
      have h := hwA.symm.trans (workerRun_err_all pa idsA trA)
      rw [Option.some.injEq, Prod.mk.injEq] at h
      rw [h.1, hA]
    have eB : evsB = List.replicate 5 WorkerStatus.Failed ++
        [WorkerStatus.AllFinished] := by
      have h := hwB.symm.trans (workerRun_err_all pb idsB trB)
      rw [Option.some.injEq, Prod.mk.injEq] at h
      rw [h.1, hB]
    have hcnt : ∀ a : WorkerStatus,
        es.count a = (evsA ++ evsB).count a := fun a => hperm.count_eq a
    have hSent : es.count WorkerStatus.Sent = 0 := by
      rw [hcnt, eA, eB]; decide
    have hSucc : es.count WorkerStatus.Success = 0 := by
      rw [hcnt, eA, eB]; decide
    have hTime : es.count WorkerStatus.Timeout = 0 := by
      rw [hcnt, eA, eB]; decide
    have hFail : es.count WorkerStatus.Failed = 10 := by
      rw [hcnt, eA, eB]; decide
    have hAF : es.count WorkerStatus.AllFinished = 2 := by
      rw [hcnt, eA, eB]; decide
    have hfin := aggLoop_complete es counters0 2 hlast (by simp [counters0, hAF])
    rw [hfin, foldl_step_counts]
    simp [counters0, hSent, hSucc, hTime, hFail, hAF]

/-- Witness for C2 on a concrete all-sends-fail two-worker run. -/
theorem run_accounting_witness :
    ((List.replicate 5 WorkerStatus.Failed ++
        [WorkerStatus.AllFinished]).count WorkerStatus.Success +
      (List.replicate 5 WorkerStatus.Failed ++
        [WorkerStatus.AllFinished]).count WorkerStatus.Timeout +
      (List.replicate 5 WorkerStatus.Failed ++
        [WorkerStatus.AllFinished]).count WorkerStatus.Failed = 5) ∧
    aggLoop 2 counters0
        ((List.replicate 5 WorkerStatus.Failed ++ [WorkerStatus.AllFinished]) ++
          (List.replicate 5 WorkerStatus.Failed ++ [WorkerStatus.AllFinished])) =
      ({ sent := 0, success := 0, timeout := 0, failed := 10,
          all_finished := 2 }, true) := by
  have h1 : workerRun parseConst1
      ([0, 1, 2, 3, 4].map (fun i => (i, SendOutcome.err))) [] =
      some (List.replicate 5 WorkerStatus.Failed ++
        [WorkerStatus.AllFinished], []) := rfl
  have h2 : workerRun parseConst1
      ([5, 6, 7, 8, 9].map (fun i => (i, SendOutcome.err))) [] =
      some (List.replicate 5 WorkerStatus.Failed ++
        [WorkerStatus.AllFinished], []) := rfl
  constructor
  · exact (run_accounting.1 parseConst1 _ [] _ [] h1).2
  · exact run_accounting.2 parseConst1 parseConst1 [0, 1, 2, 3, 4] [5, 6, 7, 8, 9]
      [] [] _ _ [] [] _ rfl rfl h1 h2 (List.Perm.refl _) (by decide)

/-- C8 (amended): every single blocking receive within an iteration
respects the configured read timeout, which recv_resp re-arms in full
before each attempt; hence the total time an iteration blocks is
bounded by (number of mismatched replies + 1) times the configured
timeout, not by the timeout alone. -/
theorem recv_wait_bound (parseResp : List Nat → Option DnsHeader)
    (id timeout : Nat) :
    ∀ tr : List (RecvOutcome × Nat), (∀ x ∈ tr, x.2 ≤ timeout) →
      recvWait parseResp id tr ≤
        (recvMismatches parseResp id tr + 1) * timeout := by
  intro tr
  induction tr with
  | nil => intro h; simp [recvWait]
  | cons e tr ih =>
    intro h
    obtain ⟨o, t⟩ := e
    have ht : t ≤ timeout := h (o, t) (by simp)
    have htail : ∀ x ∈ tr, x.2 ≤ timeout := fun x hx => h x (by simp [hx])
    cases o with
    | timedOut =>
      simp only [recvWait, recvMismatches]
      omega
    | recvErr =>
      simp only [recvWait, recvMismatches]
      omega
    | ok d =>
      cases hp : parseResp (recvBuffer d) with
      | none =>
        simp only [recvWait, recvMismatches, hp]
        omega
      | some hdr =>
        by_cases hid : hdr.id = id
        · simp only [recvWait, recvMismatches, hp, hid, if_true]
          omega
        · simp only [recvWait, recvMismatches, hp, hid, if_false]
          calc t + recvWait parseResp id tr
              ≤ timeout + (recvMismatches parseResp id tr + 1) * timeout :=
                Nat.add_le_add ht (ih htail)
            _ = (1 + recvMismatches parseResp id tr + 1) * timeout := by ring

/-- Witness for C8 (amended) on the one-mismatch trace. -/
theorem recv_wait_bound_witness :
    (∀ x ∈ [(RecvOutcome.ok [], 500), (RecvOutcome.timedOut, 500)],
      Prod.snd x ≤ 500) ∧
    recvWait parseConst1 0 [(RecvOutcome.ok [], 500), (RecvOutcome.timedOut, 500)] ≤
      (recvMismatches parseConst1 0
        [(RecvOutcome.ok [], 500), (RecvOutcome.timedOut, 500)] + 1) * 500 :=
  ⟨by decide, recv_wait_bound parseConst1 0 500
    [(RecvOutcome.ok [], 500), (RecvOutcome.timedOut, 500)] (by decide)⟩

/-- C8 counterexample: a single mismatched reply arriving after 500 ms
followed by a recv that exhausts the freshly re-armed 500 ms read
timeout makes one iteration block for 1000 ms, although every
individual blocking call stays within the configured 500 ms
per-request timeout.  The total wait of an iteration is therefore not
bounded by the configured timeout. -/
theorem recv_wait_exceeds_timeout :
    (∀ x ∈ [(RecvOutcome.ok [], 500), (RecvOutcome.timedOut, 500)],
      Prod.snd x ≤ 500) ∧
    recvWait parseConst1 0
        [(RecvOutcome.ok [], 500), (RecvOutcome.timedOut, 500)] = 1000 ∧
    ¬ recvWait parseConst1 0
        [(RecvOutcome.ok [], 500), (RecvOutcome.timedOut, 500)] ≤ 500 := by
  refine ⟨by decide, rfl, ?_⟩
  intro h
  simp [recvWait, parseConst1] at h

/-- C9: read_domains keeps exactly the trimmed lines that are
non-blank and pass the validator, in file order, dropping malformed
lines silently; a file with three valid lines, one blank line and one
malformed line yields exactly the three valid entries. -/
theorem read_domains_filter :
    (∀ (valid : List Char → Bool) (lines : List (List Char)),
      read_domains valid lines =
        (lines.map trimChars).filter (fun t => !t.isEmpty && valid t)) ∧
    read_domains (fun t => !(t == "bad domain".data))
        ["example.com".data, "".data, "bad domain".data, "rust-lang.org".data,
          " wikipedia.org ".data] =
      ["example.com".data, "rust-lang.org".data, "wikipedia.org".data] ∧
    (read_domains (fun t => !(t == "bad domain".data))
        ["example.com".data, "".data, "bad domain".data, "rust-lang.org".data,
          " wikipedia.org ".data]).length = 3 := by
  refine ⟨?_, by decide, by decide⟩
  intro valid lines
  induction lines with
  | nil => rfl
  | cons l ls ih =>
    by_cases he : (trimChars l).isEmpty
    · simp [read_domains, he, List.filter_cons, ih]
    · by_cases hv : valid (trimChars l)
      · simp [read_domains, he, hv, List.filter_cons, ih]
      · simp [read_domains, he, hv, List.filter_cons, ih]

end DnsBench
